import Mathlib

/-!
Verification of the chunk-management engine of src/heapAllocator.c.

The allocator state is embedded shallowly:
- the chunk chain is a list of chunk records in chain order (the C chain is a
  singly linked list whose next pointers mirror arena-address order, so list
  order is exactly next-pointer order; removing a list element models
  redirecting a next pointer past it);
- raw addresses are natural numbers; a chunk record carries the address of its
  header, so payload pointers are addr + CHUNK_SIZE and the pointer
  arithmetic of heapFree (header recovery by back-stepping one header width)
  is addr = ptr - CHUNK_SIZE;
- the program break (sbrk) is a natural number that grows monotonically;
  whether an sbrk call succeeds is passed in as an explicit boolean oracle;
- size_t arithmetic is modelled on Nat: in every modelled regime the C
  arithmetic cannot wrap (sizes are bounded by the arena extent, and the one
  subtraction, chunk.size - size in the split path, runs only under the
  guard chunk.size >= size established by findFreeChunk);
- the diagnostic file/line fields of a chunk are not modelled: the spec calls
  them meaningless while free and no verified property mentions them;
- the pthread mutex is not modelled: all modelled runs are single-threaded
  interleavings of whole calls, which is what the lock enforces.
-/

namespace HeapAlloc

/-- ALIGNMENT, line 9 of the source: chunks are aligned to 8 bytes. -/
def ALIGNMENT : Nat := 8

/-- CHUNK_SIZE, line 8 of the source: sizeof(heapChunk) on an LP64 platform.
Layout: int magic (offset 0, 4 bytes + 4 padding), size_t size (offset 8),
bool isFree (offset 16, 1 byte + 7 padding), heapChunk *next (offset 24),
const char *file (offset 32), int line (offset 40, 4 bytes + 4 tail padding),
total 48 bytes. -/
def CHUNK_SIZE : Nat := 48

/-- MAGIC_NUMBER, line 11 of the source: the sentinel stamped into every
header the allocator creates. -/
def MAGIC_NUMBER : Nat := 0x12345678

/-- ALIGN, line 10 of the source: ((size) + (ALIGNMENT-1)) & ~(ALIGNMENT-1).
Clearing the low three bits of size + 7 rounds up to the next multiple of 8,
which on Nat is division then multiplication by 8. -/
def ALIGN (size : Nat) : Nat := (size + (ALIGNMENT - 1)) / ALIGNMENT * ALIGNMENT

/-- The heapChunk header, lines 18-28 of the source, without the diagnostic
file/line fields (see the module comment). addr is the address of the header
itself; the next pointer is represented by list order. -/
structure Chunk where
  magic : Nat
  size : Nat
  isFree : Bool
  addr : Nat
deriving DecidableEq, Repr

/-- MemoryStats, lines 30-37 of the source. -/
structure MemoryStats where
  allocCalls : Nat
  totalAllocated : Nat
  peakMemory : Nat
  sbrkCalls : Nat
  corruptedChunks : Nat
  unfreedChunks : Nat
deriving DecidableEq, Repr

/-- The global allocator state: the chunk chain rooted at allChunks (line 42),
the current program break, and mem_stats (line 39). -/
structure AllocState where
  allChunks : List Chunk
  brk : Nat
  stats : MemoryStats
deriving DecidableEq, Repr

/-- mem_stats = {0}, line 39 of the source. -/
def initStats : MemoryStats := ⟨0, 0, 0, 0, 0, 0⟩

/-- The state at program start: empty chain, all counters zero. b0 is the
initial program break handed out by the OS. -/
def initState (b0 : Nat) : AllocState := ⟨[], b0, initStats⟩

/-- findFreeChunk, lines 45-55 of the source. Walks the chain from the head;
while the current chunk is not a free chunk of sufficient size it writes the
current chunk into the last out-parameter and advances. Returns the pair
(current, last) at loop exit. -/
def findFreeChunk : List Chunk → Option Chunk → Nat → Option Chunk × Option Chunk
  | [], last, _ => (none, last)
  | c :: rest, last, size =>
    if c.isFree ∧ size ≤ c.size then (some c, last)
    else findFreeChunk rest (some c) size

/-- splitChunk, lines 57-67 of the source. Returns the shrunk original chunk
and the freshly carved remainder chunk that the C splices in right after it
(chunk.next = newChunk; the splice is performed by the caller of this
definition by consing both onto the rest of the chain). The new header sits at
byte offset size + CHUNK_SIZE inside the old chunk region and receives the
leftover capacity, the free flag, and the sentinel. -/
def splitChunk (c : Chunk) (size : Nat) : Chunk × Chunk :=
  ({ c with size := size },
   { magic := MAGIC_NUMBER,
     size := c.size - size - CHUNK_SIZE,
     isFree := true,
     addr := c.addr + size + CHUNK_SIZE })

/-- The chain-reuse path of myAlloc, lines 88-100 of the source: locate the
first free chunk of sufficient size (findFreeChunk), split it when the excess
is at least CHUNK_SIZE + ALIGNMENT, and clear its free flag. Returns the
address of the claimed header together with the updated chain, or none on a
miss. -/
def myAllocChain : List Chunk → Nat → Option (Nat × List Chunk)
  | [], _ => none
  | c :: rest, size =>
    if c.isFree ∧ size ≤ c.size then
      if CHUNK_SIZE + ALIGNMENT ≤ c.size - size then
        some (c.addr, { (splitChunk c size).1 with isFree := false } :: (splitChunk c size).2 :: rest)
      else
        some (c.addr, { c with isFree := false } :: rest)
    else
      match myAllocChain rest size with
      | none => none
      | some (a, rest2) => some (a, c :: rest2)

/-- myAlloc, lines 75-134 of the source. size <= 0 on size_t means size == 0.
On a chain miss the growth path runs sbrkWithStats (lines 69-73): the sbrk
counter is incremented first, then sbrk either fails (returns (void [star]) -1;
modelled by the sbrkOk oracle) or returns the old break and advances it by
totalSize. The fresh header is stamped with size, sentinel, next = NULL and
occupied, then appended through last (the chain tail) or installed as the new
head when the chain was empty; both cases are list append. The returned
payload pointer is one header width past the chunk start. -/
def myAlloc (st : AllocState) (size : Nat) (sbrkOk : Bool) : Option Nat × AllocState :=
  if size = 0 then (none, st)
  else
    let aligned := ALIGN size
    let totalSize := aligned + CHUNK_SIZE
    match myAllocChain st.allChunks aligned with
    | some (a, chunks2) =>
      (some (a + CHUNK_SIZE), { st with allChunks := chunks2 })
    | none =>
      let stats1 := { st.stats with sbrkCalls := st.stats.sbrkCalls + 1 }
      if sbrkOk then
        (some (st.brk + CHUNK_SIZE),
         { allChunks := st.allChunks ++
             [{ magic := MAGIC_NUMBER, size := aligned, isFree := false, addr := st.brk }],
           brk := st.brk + totalSize,
           stats := stats1 })
      else
        (none, { st with stats := stats1 })

/-- allocWithStats, lines 138-146 of the source: bumps the allocation-call
count and the cumulative byte count, raises the recorded peak to the new
cumulative total when it exceeds the old peak, then calls myAlloc. -/
def allocWithStats (st : AllocState) (bytes : Nat) (sbrkOk : Bool) : Option Nat × AllocState :=
  let total := st.stats.totalAllocated + bytes
  let peak := if st.stats.peakMemory < total then total else st.stats.peakMemory
  myAlloc
    { st with stats :=
        { st.stats with
            allocCalls := st.stats.allocCalls + 1,
            totalAllocated := total,
            peakMemory := peak } }
    bytes sbrkOk

/-- heapMergeChunks, lines 148-155 of the source: while the next chunk exists
and is free, absorb it (size += CHUNK_SIZE + next.size; next = next.next).
The argument list is the part of the chain after the merging chunk; the
result is the grown chunk together with the remaining chain suffix. -/
def heapMergeChunks : Chunk → List Chunk → Chunk × List Chunk
  | c, [] => (c, [])
  | c, n :: rest =>
    if n.isFree then
      heapMergeChunks { c with size := c.size + CHUNK_SIZE + n.size } rest
    else
      (c, n :: rest)

/-- The body of heapFree, lines 163-177 of the source, acting on the chain:
walk to the chunk whose header sits at address a. There the magic sentinel is
compared; on mismatch the corrupted flag is reported. The source then FALLS
THROUGH: the corruption branch (lines 165-170) has no return after perror, so
the chunk is marked free and forward-merged in every case, exactly as
modelled here. The source guards heapMergeChunks by if (chunk->next), which
is redundant: the merge loop is a no-op on an absent successor. A pointer
recovering to no chain header dereferences memory outside the model; every
theorem below applies heapFree only to pointers that recover to a chain
chunk. -/
def heapFreeChain : List Chunk → Nat → Bool × List Chunk
  | [], _ => (false, [])
  | c :: rest, a =>
    if c.addr = a then
      (decide (c.magic ≠ MAGIC_NUMBER),
       (heapMergeChunks { c with isFree := true } rest).1 ::
         (heapMergeChunks { c with isFree := true } rest).2)
    else
      ((heapFreeChain rest a).1, c :: (heapFreeChain rest a).2)

/-- heapFree, lines 157-178 of the source: no-op on NULL; otherwise recover
the header one header width before the payload pointer, bump the corrupted
counter on sentinel mismatch, and (fall-through, see heapFreeChain) mark the
chunk free and merge forward. -/
def heapFree (st : AllocState) (ptr : Option Nat) : AllocState :=
  match ptr with
  | none => st
  | some p =>
    let r := heapFreeChain st.allChunks (p - CHUNK_SIZE)
    { st with
        allChunks := r.2,
        stats :=
          if r.1 then
            { st.stats with corruptedChunks := st.stats.corruptedChunks + 1 }
          else
            st.stats }

/-- One external call into the allocation facade: an allocWithStats call (with
its sbrk-success oracle) or a heapFree call on a payload pointer (none is
NULL). -/
inductive AllocOp where
  | alloc (bytes : Nat) (sbrkOk : Bool)
  | free (ptr : Option Nat)
deriving DecidableEq, Repr

/-- Effect of one call on the allocator state. -/
def step (st : AllocState) : AllocOp → AllocState
  | .alloc bytes sbrkOk => (allocWithStats st bytes sbrkOk).2
  | .free ptr => heapFree st ptr

/-- Effect of a whole call sequence, first call first. -/
def run (ops : List AllocOp) (st : AllocState) : AllocState :=
  ops.foldl step st

/-- Bytes requested by one call: the argument of an alloc, 0 for a free. -/
def requestedBytes : AllocOp → Nat
  | .alloc bytes _ => bytes
  | .free _ => 0

/-- Modelled from the spec: the peak cumulative bytes outstanding of a trace.
Each list entry is the signed change of the outstanding-byte count produced
by one call (+n for an allocation of n bytes, -n when an allocation of n
bytes is released); the peak is the maximum of the running sum over time,
starting from 0 outstanding bytes. This definition follows the words of the
spec, not the source, and exists to be compared against the peakMemory
statistic the source maintains. -/
def outstandingPeakAux : Int → Int → List Int → Int
  | _, peak, [] => peak
  | cur, peak, d :: rest => outstandingPeakAux (cur + d) (max peak (cur + d)) rest

/-- Modelled from the spec: see outstandingPeakAux. -/
def outstandingPeak (deltas : List Int) : Int := outstandingPeakAux 0 0 deltas

/-! ### Claim C1: corruption handling in heapFree -/

/-- A chain of two chunks for exercising the corruption branch of heapFree:
the chunk at address 0 has had its sentinel overwritten (magic 0) and is
occupied; its successor at address 56 (physically adjacent: 0 + CHUNK_SIZE +
8) is intact and free. -/
def corruptState : AllocState :=
  { allChunks :=
      [{ magic := 0, size := 8, isFree := false, addr := 0 },
       { magic := MAGIC_NUMBER, size := 8, isFree := true, addr := 56 }],
    brk := 112,
    stats := initStats }

/-- C1. The claim is right and the code is wrong: the corruption branch of
heapFree (lines 165-170) increments the corrupted-chunk counter, unlocks and
reports, but is missing a return, so the call FALLS THROUGH and still marks
the untrusted chunk free and forward-merges through its untrusted size/next
fields (mutating the chain after having released the lock). Releasing the
payload pointer 48 of the corrupted occupied chunk of corruptState increments
the counter as the claim says, but also flips the chunk to free, grows its
size from 8 to 64 and unlinks its successor, where the claim requires every
isFree, size and next field to be unchanged. -/
theorem heapFree_corrupted_fallthrough_bug :
    (heapFree corruptState (some 48)).stats.corruptedChunks = 1 ∧
    (heapFree corruptState (some 48)).allChunks =
      [{ magic := 0, size := 64, isFree := true, addr := 0 }] := by
  decide

/-! ### Claim C2: first-fit search of findFreeChunk -/

/-- C2. findFreeChunk returns, as its first component, exactly the first
chunk in head-to-tail chain order whose free flag is set and whose size is at
least the requested size (List.find? is first-match search); and when no
chunk of the chain fits, its second component (the last out-parameter) is the
tail of the chain, the predecessor under which the caller appends a freshly
grown chunk. -/
theorem findFreeChunk_firstFit (chunks : List Chunk) (last0 : Option Chunk) (s : Nat) :
    (findFreeChunk chunks last0 s).1 =
      chunks.find? (fun c => c.isFree && decide (s ≤ c.size)) ∧
    ((∀ c ∈ chunks, ¬(c.isFree = true ∧ s ≤ c.size)) → chunks ≠ [] →
      (findFreeChunk chunks last0 s).2 = chunks.getLast?) := by
  induction chunks generalizing last0 with
  | nil =>
    refine ⟨rfl, ?_⟩
    intro _ h
    exact absurd rfl h
  | cons c rest ih =>
    by_cases hfit : c.isFree ∧ s ≤ c.size
    · refine ⟨?_, ?_⟩
      · rw [findFreeChunk, if_pos hfit, List.find?_cons_of_pos]
        simp [hfit.1, hfit.2]
      · intro hnone _
        exact absurd ⟨hfit.1, hfit.2⟩ (hnone c (List.mem_cons_self c rest))
    · have hstep : findFreeChunk (c :: rest) last0 s = findFreeChunk rest (some c) s := by
        rw [findFreeChunk, if_neg hfit]
      refine ⟨?_, ?_⟩
      · rw [hstep, (ih (some c)).1, List.find?_cons_of_neg]
        simp only [Bool.and_eq_true, decide_eq_true_eq]
        exact fun h => hfit ⟨h.1, h.2⟩
      · intro hnone _
        match rest with
        | [] =>
          rw [hstep]
          rfl
        | d :: rest2 =>
          rw [hstep, (ih (some c)).2 (fun x hx => hnone x (List.mem_cons_of_mem c hx))
              (by simp), List.getLast?_cons_cons]

/-- Witness for C2 at a concrete chain with no fitting chunk: the search
reports no match and hands back the tail chunk. -/
theorem findFreeChunk_firstFit_witness :
    ((∀ c ∈ [({ magic := 1, size := 8, isFree := false, addr := 0 } : Chunk),
              { magic := 1, size := 8, isFree := false, addr := 56 }],
        ¬(c.isFree = true ∧ 8 ≤ c.size)) ∧
     ([({ magic := 1, size := 8, isFree := false, addr := 0 } : Chunk),
       { magic := 1, size := 8, isFree := false, addr := 56 }] ≠ [])) ∧
    (findFreeChunk
        [{ magic := 1, size := 8, isFree := false, addr := 0 },
         { magic := 1, size := 8, isFree := false, addr := 56 }]
        (some { magic := 1, size := 8, isFree := false, addr := 0 }) 8).2 =
      [({ magic := 1, size := 8, isFree := false, addr := 0 } : Chunk),
       { magic := 1, size := 8, isFree := false, addr := 56 }].getLast? :=
  ⟨⟨by decide, by decide⟩,
   (findFreeChunk_firstFit
      [{ magic := 1, size := 8, isFree := false, addr := 0 },
       { magic := 1, size := 8, isFree := false, addr := 56 }]
      (some { magic := 1, size := 8, isFree := false, addr := 0 }) 8).2
     (by decide) (by decide)⟩

/-! ### Helper lemmas about ALIGN and the alloc paths -/

theorem ALIGN_mod8 (s : Nat) : ALIGN s % 8 = 0 := by
  unfold ALIGN ALIGNMENT
  exact Nat.mul_mod_left ((s + (8 - 1)) / 8) 8

theorem le_ALIGN (s : Nat) : s ≤ ALIGN s := by
  unfold ALIGN ALIGNMENT
  omega

theorem ALIGN_mono {k n : Nat} (h : k ≤ n) : ALIGN k ≤ ALIGN n := by
  unfold ALIGN ALIGNMENT
  exact Nat.mul_le_mul_right 8 (Nat.div_le_div_right (Nat.add_le_add_right h 7))

theorem myAllocChain_eq_none (chunks : List Chunk) (s : Nat)
    (h : ∀ c ∈ chunks, ¬(c.isFree = true ∧ s ≤ c.size)) :
    myAllocChain chunks s = none := by
  induction chunks with
  | nil => rfl
  | cons c rest ih =>
    rw [myAllocChain, if_neg (h c (List.mem_cons_self c rest)),
      ih (fun d hd => h d (List.mem_cons_of_mem c hd))]

theorem myAlloc_hit (st : AllocState) (size a : Nat) (l : List Chunk) (ok : Bool)
    (hne : size ≠ 0) (h : myAllocChain st.allChunks (ALIGN size) = some (a, l)) :
    myAlloc st size ok = (some (a + CHUNK_SIZE), { st with allChunks := l }) := by
  simp only [myAlloc, hne, if_false, h]

theorem myAlloc_miss (st : AllocState) (size : Nat) (ok : Bool)
    (hne : size ≠ 0) (h : myAllocChain st.allChunks (ALIGN size) = none) :
    myAlloc st size ok =
      if ok then
        (some (st.brk + CHUNK_SIZE),
         { allChunks := st.allChunks ++
             [{ magic := MAGIC_NUMBER, size := ALIGN size, isFree := false, addr := st.brk }],
           brk := st.brk + (ALIGN size + CHUNK_SIZE),
           stats := { st.stats with sbrkCalls := st.stats.sbrkCalls + 1 } })
      else
        (none, { st with stats := { st.stats with sbrkCalls := st.stats.sbrkCalls + 1 } }) := by
  simp only [myAlloc, hne, if_false, h]

theorem myAllocChain_cons_fit (c : Chunk) (rest : List Chunk) (s : Nat)
    (hfree : c.isFree = true) (hsz : s ≤ c.size) :
    ∃ l, myAllocChain (c :: rest) s = some (c.addr, l) := by
  by_cases hs : CHUNK_SIZE + ALIGNMENT ≤ c.size - s
  · exact ⟨_, by rw [myAllocChain, if_pos ⟨hfree, hsz⟩, if_pos hs]⟩
  · exact ⟨_, by rw [myAllocChain, if_pos ⟨hfree, hsz⟩, if_neg hs]⟩

theorem allocWithStats_hit (st : AllocState) (bytes a : Nat) (l : List Chunk) (ok : Bool)
    (hne : bytes ≠ 0) (h : myAllocChain st.allChunks (ALIGN bytes) = some (a, l)) :
    (allocWithStats st bytes ok).1 = some (a + CHUNK_SIZE) ∧
    (allocWithStats st bytes ok).2.stats.sbrkCalls = st.stats.sbrkCalls ∧
    (allocWithStats st bytes ok).2.allChunks = l := by
  simp only [allocWithStats, myAlloc, hne, if_false]
  rw [h]
  exact ⟨rfl, rfl, rfl⟩

/-! ### Claim C6: failed arena growth has no side effect beyond the counters -/

/-- C6. An allocate call that misses the free list (no reachable chunk is
free with sufficient aligned size) and whose sbrk request fails returns null,
and the resulting state differs from the input state only in the pre-lock
statistics (call count, cumulative bytes, peak) and the incremented
arena-growth counter: the chunk chain, every chunk in it, the program break
and the corruption/leak counters are unchanged. -/
theorem alloc_miss_sbrkFail_noSideEffects (st : AllocState) (bytes : Nat)
    (hpos : 0 < bytes)
    (hmiss : ∀ c ∈ st.allChunks, ¬(c.isFree = true ∧ ALIGN bytes ≤ c.size)) :
    allocWithStats st bytes false =
      (none,
       { allChunks := st.allChunks,
         brk := st.brk,
         stats :=
           { allocCalls := st.stats.allocCalls + 1,
             totalAllocated := st.stats.totalAllocated + bytes,
             peakMemory :=
               if st.stats.peakMemory < st.stats.totalAllocated + bytes then
                 st.stats.totalAllocated + bytes
               else st.stats.peakMemory,
             sbrkCalls := st.stats.sbrkCalls + 1,
             corruptedChunks := st.stats.corruptedChunks,
             unfreedChunks := st.stats.unfreedChunks } }) := by
  have hne : bytes ≠ 0 := by omega
  simp only [allocWithStats, myAlloc, hne, if_false]
  rw [myAllocChain_eq_none _ _ hmiss]
  rfl

/-- Witness for C6: a one-chunk chain whose only chunk is occupied, so an
8-byte request misses; with sbrk failing, the call returns null and only the
statistics move. -/
theorem alloc_miss_sbrkFail_noSideEffects_witness :
    ((0 : Nat) < 8 ∧
     (∀ c ∈ ({ allChunks := [{ magic := MAGIC_NUMBER, size := 8, isFree := false, addr := 0 }],
               brk := 56, stats := ⟨1, 5, 5, 1, 0, 0⟩ } : AllocState).allChunks,
        ¬(c.isFree = true ∧ ALIGN 8 ≤ c.size))) ∧
    allocWithStats
        { allChunks := [{ magic := MAGIC_NUMBER, size := 8, isFree := false, addr := 0 }],
          brk := 56, stats := ⟨1, 5, 5, 1, 0, 0⟩ } 8 false =
      (none,
       { allChunks := ({ allChunks := [{ magic := MAGIC_NUMBER, size := 8, isFree := false, addr := 0 }],
                         brk := 56, stats := ⟨1, 5, 5, 1, 0, 0⟩ } : AllocState).allChunks,
         brk := 56,
         stats :=
           { allocCalls := 1 + 1,
             totalAllocated := 5 + 8,
             peakMemory := if 5 < 5 + 8 then 5 + 8 else 5,
             sbrkCalls := 1 + 1,
             corruptedChunks := 0,
             unfreedChunks := 0 } }) :=
  ⟨⟨by decide, by decide⟩,
   alloc_miss_sbrkFail_noSideEffects
     { allChunks := [{ magic := MAGIC_NUMBER, size := 8, isFree := false, addr := 0 }],
       brk := 56, stats := ⟨1, 5, 5, 1, 0, 0⟩ } 8 (by decide) (by decide)⟩

theorem myAllocChain_characterize (chunks : List Chunk) (aligned : Nat) :
    ∀ (a : Nat) (chunks2 : List Chunk),
    myAllocChain chunks aligned = some (a, chunks2) →
    ∃ pre c post,
      chunks = pre ++ c :: post ∧
      (∀ d ∈ pre, ¬(d.isFree = true ∧ aligned ≤ d.size)) ∧
      c.isFree = true ∧ aligned ≤ c.size ∧ a = c.addr ∧
      (if CHUNK_SIZE + ALIGNMENT ≤ c.size - aligned then
        chunks2 = pre ++ { c with size := aligned, isFree := false } ::
          { magic := MAGIC_NUMBER, size := c.size - aligned - CHUNK_SIZE,
            isFree := true, addr := c.addr + aligned + CHUNK_SIZE } :: post
      else
        chunks2 = pre ++ { c with isFree := false } :: post) := by
  induction chunks with
  | nil =>
    intro a chunks2 h
    exact absurd h (by simp [myAllocChain])
  | cons c rest ih =>
    intro a chunks2 h
    rw [myAllocChain] at h
    by_cases hfit : c.isFree ∧ aligned ≤ c.size
    · rw [if_pos hfit] at h
      by_cases hsplit : CHUNK_SIZE + ALIGNMENT ≤ c.size - aligned
      · rw [if_pos hsplit] at h
        simp only [Option.some.injEq, Prod.mk.injEq] at h
        obtain ⟨ha, hl⟩ := h
        refine ⟨[], c, rest, rfl, by simp, hfit.1, hfit.2, ha.symm, ?_⟩
        rw [if_pos hsplit]
        simpa [splitChunk] using hl.symm
      · rw [if_neg hsplit] at h
        simp only [Option.some.injEq, Prod.mk.injEq] at h
        obtain ⟨ha, hl⟩ := h
        refine ⟨[], c, rest, rfl, by simp, hfit.1, hfit.2, ha.symm, ?_⟩
        rw [if_neg hsplit]
        exact hl.symm
    · rw [if_neg hfit] at h
      cases hrec : myAllocChain rest aligned with
      | none =>
        rw [hrec] at h
        exact absurd h (by simp)
      | some p =>
        obtain ⟨a0, rest2⟩ := p
        rw [hrec] at h
        simp only [Option.some.injEq, Prod.mk.injEq] at h
        obtain ⟨ha, hl⟩ := h
        obtain ⟨pre, c0, post, hchunks, hpre, hf, hsz, haddr, hif⟩ := ih a0 rest2 hrec
        refine ⟨c :: pre, c0, post, by rw [hchunks]; rfl, ?_, hf, hsz, ha ▸ haddr, ?_⟩
        · intro d hd
          rcases List.mem_cons.mp hd with rfl | hd2
          · exact hfit
          · exact hpre d hd2
        · by_cases hs : CHUNK_SIZE + ALIGNMENT ≤ c0.size - aligned
          · rw [if_pos hs]
            rw [if_pos hs] at hif
            rw [← hl, hif]
            rfl
          · rw [if_neg hs]
            rw [if_neg hs] at hif
            rw [← hl, hif]
            rfl

/-! ### Claim C3: conditional split on reuse -/

/-- C3. Whenever the chain-reuse path of an allocate call claims a chunk
(the first free chunk c whose size covers the aligned request), the outcome
is governed by the split threshold: if the excess capacity c.size - aligned
is at least one header width plus the alignment granularity
(CHUNK_SIZE + ALIGNMENT), the chunk is split — a new free sentinel-stamped
chunk of size c.size - aligned - CHUNK_SIZE is spliced into the chain
immediately after it at byte offset aligned + CHUNK_SIZE, and the claimed
chunk is handed out with size exactly aligned; otherwise no split happens and
the claimed chunk keeps its larger size unchanged. -/
theorem splitChunk_on_reuse (chunks : List Chunk) (aligned a : Nat) (chunks2 : List Chunk)
    (h : myAllocChain chunks aligned = some (a, chunks2)) :
    ∃ pre c post,
      chunks = pre ++ c :: post ∧
      (∀ d ∈ pre, ¬(d.isFree = true ∧ aligned ≤ d.size)) ∧
      c.isFree = true ∧ aligned ≤ c.size ∧ a = c.addr ∧
      (if CHUNK_SIZE + ALIGNMENT ≤ c.size - aligned then
        chunks2 = pre ++ { c with size := aligned, isFree := false } ::
          { magic := MAGIC_NUMBER, size := c.size - aligned - CHUNK_SIZE,
            isFree := true, addr := c.addr + aligned + CHUNK_SIZE } :: post
      else
        chunks2 = pre ++ { c with isFree := false } :: post) :=
  myAllocChain_characterize chunks aligned a chunks2 h

/-- Witness for C3 on a concrete split: a single free chunk of size 120 and
an aligned request of 16 leave an occupied 16-byte chunk and a fresh free
56-byte chunk at offset 64. -/
theorem splitChunk_on_reuse_witness :
    myAllocChain [{ magic := MAGIC_NUMBER, size := 120, isFree := true, addr := 0 }] 16 =
      some (0, [{ magic := MAGIC_NUMBER, size := 16, isFree := false, addr := 0 },
                { magic := MAGIC_NUMBER, size := 56, isFree := true, addr := 64 }]) ∧
    (∃ pre c post,
      [({ magic := MAGIC_NUMBER, size := 120, isFree := true, addr := 0 } : Chunk)] =
        pre ++ c :: post ∧
      (∀ d ∈ pre, ¬(d.isFree = true ∧ 16 ≤ d.size)) ∧
      c.isFree = true ∧ 16 ≤ c.size ∧ 0 = c.addr ∧
      (if CHUNK_SIZE + ALIGNMENT ≤ c.size - 16 then
        [({ magic := MAGIC_NUMBER, size := 16, isFree := false, addr := 0 } : Chunk),
         { magic := MAGIC_NUMBER, size := 56, isFree := true, addr := 64 }] =
          pre ++ { c with size := 16, isFree := false } ::
            { magic := MAGIC_NUMBER, size := c.size - 16 - CHUNK_SIZE,
              isFree := true, addr := c.addr + 16 + CHUNK_SIZE } :: post
      else
        [({ magic := MAGIC_NUMBER, size := 16, isFree := false, addr := 0 } : Chunk),
         { magic := MAGIC_NUMBER, size := 56, isFree := true, addr := 64 }] =
          pre ++ { c with isFree := false } :: post)) :=
  ⟨by decide,
   splitChunk_on_reuse [{ magic := MAGIC_NUMBER, size := 120, isFree := true, addr := 0 }] 16 0
     [{ magic := MAGIC_NUMBER, size := 16, isFree := false, addr := 0 },
      { magic := MAGIC_NUMBER, size := 56, isFree := true, addr := 64 }] (by decide)⟩

theorem heapFreeChain_append (pre rest : List Chunk) (a : Nat)
    (h : ∀ d ∈ pre, d.addr ≠ a) :
    heapFreeChain (pre ++ rest) a =
      ((heapFreeChain rest a).1, pre ++ (heapFreeChain rest a).2) := by
  induction pre with
  | nil => rfl
  | cons d pre2 ih =>
    rw [List.cons_append, heapFreeChain, if_neg (h d (List.mem_cons_self d pre2)),
      ih (fun x hx => h x (List.mem_cons_of_mem d hx))]
    rfl

theorem heapFree_allChunks (st : AllocState) (p : Nat) :
    (heapFree st (some p)).allChunks = (heapFreeChain st.allChunks (p - CHUNK_SIZE)).2 := by
  rfl

theorem heapMergeChunks_stop (c : Chunk) (post : List Chunk)
    (h : ∀ d, post.head? = some d → d.isFree = false) :
    heapMergeChunks c post = (c, post) := by
  cases post with
  | nil => rfl
  | cons n rest =>
    rw [heapMergeChunks, if_neg]
    simp [h n rfl]

/-! ### Claim C10: a double free is silently accepted -/

/-- C10. Releasing a payload pointer whose recovered header carries the valid
sentinel but is already marked free is silently accepted: the statistics (in
particular the corrupted-chunk counter) are untouched, no error is signalled,
the chunk is re-marked free and forward merging is re-run from it — the
public interface has no double-free detection. -/
theorem doubleFree_silent (st : AllocState) (pre post : List Chunk) (c : Chunk)
    (hchain : st.allChunks = pre ++ c :: post)
    (hpre : ∀ d ∈ pre, d.addr ≠ c.addr)
    (hmagic : c.magic = MAGIC_NUMBER)
    (_hfree : c.isFree = true) :
    heapFree st (some (c.addr + CHUNK_SIZE)) =
      { st with allChunks :=
          pre ++ (heapMergeChunks { c with isFree := true } post).1 ::
            (heapMergeChunks { c with isFree := true } post).2 } := by
  have hhead : heapFreeChain (c :: post) c.addr =
      (false,
       (heapMergeChunks { c with isFree := true } post).1 ::
         (heapMergeChunks { c with isFree := true } post).2) := by
    rw [heapFreeChain, if_pos rfl]
    simp [hmagic]
  simp only [heapFree, Nat.add_sub_cancel, hchain,
    heapFreeChain_append pre (c :: post) c.addr hpre, hhead]
  rfl

/-- Witness for C10: a one-chunk chain whose chunk is free and intact; a
second release of its payload pointer leaves the state unchanged apart from
re-running the (here trivial) merge. -/
theorem doubleFree_silent_witness :
    (({ allChunks := [{ magic := MAGIC_NUMBER, size := 8, isFree := true, addr := 0 }],
        brk := 56, stats := ⟨1, 8, 8, 1, 0, 0⟩ } : AllocState).allChunks =
        [] ++ { magic := MAGIC_NUMBER, size := 8, isFree := true, addr := 0 } :: [] ∧
     (∀ d ∈ ([] : List Chunk),
        d.addr ≠ ({ magic := MAGIC_NUMBER, size := 8, isFree := true, addr := 0 } : Chunk).addr) ∧
     ({ magic := MAGIC_NUMBER, size := 8, isFree := true, addr := 0 } : Chunk).magic =
        MAGIC_NUMBER ∧
     ({ magic := MAGIC_NUMBER, size := 8, isFree := true, addr := 0 } : Chunk).isFree = true) ∧
    heapFree
        { allChunks := [{ magic := MAGIC_NUMBER, size := 8, isFree := true, addr := 0 }],
          brk := 56, stats := ⟨1, 8, 8, 1, 0, 0⟩ }
        (some (({ magic := MAGIC_NUMBER, size := 8, isFree := true, addr := 0 } : Chunk).addr +
          CHUNK_SIZE)) =
      { ({ allChunks := [{ magic := MAGIC_NUMBER, size := 8, isFree := true, addr := 0 }],
           brk := 56, stats := ⟨1, 8, 8, 1, 0, 0⟩ } : AllocState) with
        allChunks :=
          [] ++ (heapMergeChunks
              { ({ magic := MAGIC_NUMBER, size := 8, isFree := true, addr := 0 } : Chunk) with
                isFree := true } []).1 ::
            (heapMergeChunks
              { ({ magic := MAGIC_NUMBER, size := 8, isFree := true, addr := 0 } : Chunk) with
                isFree := true } []).2 } :=
  ⟨⟨by decide, by decide, by decide, by decide⟩,
   doubleFree_silent
     { allChunks := [{ magic := MAGIC_NUMBER, size := 8, isFree := true, addr := 0 }],
       brk := 56, stats := ⟨1, 8, 8, 1, 0, 0⟩ }
     [] [] { magic := MAGIC_NUMBER, size := 8, isFree := true, addr := 0 }
     (by decide) (by decide) (by decide) (by decide)⟩

/-! ### Claim C4: forward-only coalescing -/

/-- C4. Coalescing on release is forward-only. With two physically adjacent
occupied chunks c1 and c2 (c2 immediately following at
c1.addr + CHUNK_SIZE + c1.size) whose forward neighborhood does not continue
with a free chunk: releasing the later one and then the earlier one leaves a
single free chunk in their place whose size is the sum of both original sizes
plus one header width; releasing only the earlier one marks it free but does
not merge it with the still-occupied later one, whose record is unchanged. -/
theorem mergeForward_adjacent (st : AllocState) (pre : List Chunk) (c1 c2 : Chunk)
    (post : List Chunk)
    (hchain : st.allChunks = pre ++ c1 :: c2 :: post)
    (hpre1 : ∀ d ∈ pre, d.addr ≠ c1.addr)
    (hpre2 : ∀ d ∈ pre, d.addr ≠ c2.addr)
    (_hocc1 : c1.isFree = false)
    (hocc2 : c2.isFree = false)
    (hadj : c2.addr = c1.addr + CHUNK_SIZE + c1.size)
    (hpost : ∀ d, post.head? = some d → d.isFree = false) :
    (heapFree (heapFree st (some (c2.addr + CHUNK_SIZE)))
        (some (c1.addr + CHUNK_SIZE))).allChunks =
      pre ++ { c1 with isFree := true, size := c1.size + CHUNK_SIZE + c2.size } :: post ∧
    (heapFree st (some (c1.addr + CHUNK_SIZE))).allChunks =
      pre ++ { c1 with isFree := true } :: c2 :: post := by
  have hne12 : c1.addr ≠ c2.addr := by
    rw [hadj]
    unfold CHUNK_SIZE
    omega
  constructor
  · have h3 : heapFreeChain (c2 :: post) c2.addr =
        (decide (c2.magic ≠ MAGIC_NUMBER), { c2 with isFree := true } :: post) := by
      rw [heapFreeChain, if_pos rfl,
        heapMergeChunks_stop { c2 with isFree := true } post hpost]
    have h2 : heapFreeChain (c1 :: c2 :: post) c2.addr =
        (decide (c2.magic ≠ MAGIC_NUMBER), c1 :: { c2 with isFree := true } :: post) := by
      rw [heapFreeChain, if_neg hne12, h3]
    have hst1 : (heapFree st (some (c2.addr + CHUNK_SIZE))).allChunks =
        pre ++ c1 :: { c2 with isFree := true } :: post := by
      rw [heapFree_allChunks, Nat.add_sub_cancel, hchain,
        heapFreeChain_append pre (c1 :: c2 :: post) c2.addr hpre2, h2]
    have h4 : heapMergeChunks { c1 with isFree := true } ({ c2 with isFree := true } :: post) =
        ({ c1 with isFree := true, size := c1.size + CHUNK_SIZE + c2.size }, post) := by
      rw [heapMergeChunks, if_pos rfl,
        heapMergeChunks_stop
          { c1 with isFree := true, size := c1.size + CHUNK_SIZE + c2.size } post hpost]
    have h5 : heapFreeChain (c1 :: { c2 with isFree := true } :: post) c1.addr =
        (decide (c1.magic ≠ MAGIC_NUMBER),
         { c1 with isFree := true, size := c1.size + CHUNK_SIZE + c2.size } :: post) := by
      rw [heapFreeChain, if_pos rfl, h4]
    rw [heapFree_allChunks, Nat.add_sub_cancel, hst1,
      heapFreeChain_append pre (c1 :: { c2 with isFree := true } :: post) c1.addr hpre1, h5]
  · have h6 : heapFreeChain (c1 :: c2 :: post) c1.addr =
        (decide (c1.magic ≠ MAGIC_NUMBER), { c1 with isFree := true } :: c2 :: post) := by
      rw [heapFreeChain, if_pos rfl,
        heapMergeChunks_stop { c1 with isFree := true } (c2 :: post)
          (fun d hd => (Option.some.inj hd) ▸ hocc2)]
    rw [heapFree_allChunks, Nat.add_sub_cancel, hchain,
      heapFreeChain_append pre (c1 :: c2 :: post) c1.addr hpre1, h6]

/-- Witness for C4 at two concrete adjacent occupied chunks of sizes 8 and
16: freeing later-first then earlier yields one free chunk of size
8 + 48 + 16 = 72; freeing only the earlier one merges nothing. -/
theorem mergeForward_adjacent_witness :
    (({ allChunks := [{ magic := MAGIC_NUMBER, size := 8, isFree := false, addr := 0 },
                      { magic := MAGIC_NUMBER, size := 16, isFree := false, addr := 56 }],
        brk := 120, stats := ⟨2, 24, 24, 2, 0, 0⟩ } : AllocState).allChunks =
        [] ++ { magic := MAGIC_NUMBER, size := 8, isFree := false, addr := 0 } ::
          { magic := MAGIC_NUMBER, size := 16, isFree := false, addr := 56 } :: [] ∧
     ({ magic := MAGIC_NUMBER, size := 8, isFree := false, addr := 0 } : Chunk).isFree = false ∧
     ({ magic := MAGIC_NUMBER, size := 16, isFree := false, addr := 56 } : Chunk).isFree = false ∧
     ({ magic := MAGIC_NUMBER, size := 16, isFree := false, addr := 56 } : Chunk).addr =
       ({ magic := MAGIC_NUMBER, size := 8, isFree := false, addr := 0 } : Chunk).addr +
         CHUNK_SIZE +
         ({ magic := MAGIC_NUMBER, size := 8, isFree := false, addr := 0 } : Chunk).size) ∧
    ((heapFree (heapFree
          { allChunks := [{ magic := MAGIC_NUMBER, size := 8, isFree := false, addr := 0 },
                          { magic := MAGIC_NUMBER, size := 16, isFree := false, addr := 56 }],
            brk := 120, stats := ⟨2, 24, 24, 2, 0, 0⟩ }
          (some (({ magic := MAGIC_NUMBER, size := 16, isFree := false, addr := 56 } : Chunk).addr +
            CHUNK_SIZE)))
        (some (({ magic := MAGIC_NUMBER, size := 8, isFree := false, addr := 0 } : Chunk).addr +
          CHUNK_SIZE))).allChunks =
      [] ++ { ({ magic := MAGIC_NUMBER, size := 8, isFree := false, addr := 0 } : Chunk) with
              isFree := true,
              size := ({ magic := MAGIC_NUMBER, size := 8, isFree := false, addr := 0 } : Chunk).size +
                CHUNK_SIZE +
                ({ magic := MAGIC_NUMBER, size := 16, isFree := false, addr := 56 } : Chunk).size } ::
        [] ∧
     (heapFree
        { allChunks := [{ magic := MAGIC_NUMBER, size := 8, isFree := false, addr := 0 },
                        { magic := MAGIC_NUMBER, size := 16, isFree := false, addr := 56 }],
          brk := 120, stats := ⟨2, 24, 24, 2, 0, 0⟩ }
        (some (({ magic := MAGIC_NUMBER, size := 8, isFree := false, addr := 0 } : Chunk).addr +
          CHUNK_SIZE))).allChunks =
      [] ++ { ({ magic := MAGIC_NUMBER, size := 8, isFree := false, addr := 0 } : Chunk) with
              isFree := true } ::
        { magic := MAGIC_NUMBER, size := 16, isFree := false, addr := 56 } :: []) :=
  ⟨⟨by decide, by decide, by decide, by decide⟩,
   mergeForward_adjacent
     { allChunks := [{ magic := MAGIC_NUMBER, size := 8, isFree := false, addr := 0 },
                     { magic := MAGIC_NUMBER, size := 16, isFree := false, addr := 56 }],
       brk := 120, stats := ⟨2, 24, 24, 2, 0, 0⟩ }
     [] { magic := MAGIC_NUMBER, size := 8, isFree := false, addr := 0 }
     { magic := MAGIC_NUMBER, size := 16, isFree := false, addr := 56 } []
     (by decide) (by decide) (by decide) (by decide) (by decide) (by decide)
     (fun d hd => nomatch hd)⟩

/-! ### Claim C5: round-trip reuse of a just-freed chunk -/

/-- C5. Starting from the pristine allocator (the scenario has no other
allocations, before or between the calls): allocate(n) returns the payload
pointer b0 + CHUNK_SIZE of the single arena-grown chunk; releasing it and
then allocating any k with 0 < k <= n returns the same payload pointer — the
just-freed chunk is reused — and the second call performs no arena growth
(it succeeds even with sbrk unavailable and leaves the arena-growth counter
untouched). -/
theorem roundtrip_reuse (n k b0 : Nat) (hn : 0 < n) (hk : 0 < k) (hkn : k ≤ n) :
    (allocWithStats (initState b0) n true).1 = some (b0 + CHUNK_SIZE) ∧
    (allocWithStats
        (heapFree (allocWithStats (initState b0) n true).2
          ((allocWithStats (initState b0) n true).1)) k false).1 =
      some (b0 + CHUNK_SIZE) ∧
    (allocWithStats
        (heapFree (allocWithStats (initState b0) n true).2
          ((allocWithStats (initState b0) n true).1)) k false).2.stats.sbrkCalls =
      (heapFree (allocWithStats (initState b0) n true).2
        ((allocWithStats (initState b0) n true).1)).stats.sbrkCalls := by
  have hne : n ≠ 0 := by omega
  have hkne : k ≠ 0 := by omega
  have h1 : allocWithStats (initState b0) n true =
      (some (b0 + CHUNK_SIZE),
       { allChunks := [{ magic := MAGIC_NUMBER, size := ALIGN n, isFree := false, addr := b0 }],
         brk := b0 + (ALIGN n + CHUNK_SIZE),
         stats := ⟨1, n, n, 1, 0, 0⟩ }) := by
    simp [allocWithStats, initState, initStats, myAlloc, myAllocChain, hne, hn]
  have h2 : heapFree (allocWithStats (initState b0) n true).2
        ((allocWithStats (initState b0) n true).1) =
      { allChunks := [{ magic := MAGIC_NUMBER, size := ALIGN n, isFree := true, addr := b0 }],
        brk := b0 + (ALIGN n + CHUNK_SIZE),
        stats := ⟨1, n, n, 1, 0, 0⟩ } := by
    rw [h1]
    simp [heapFree, heapFreeChain, heapMergeChunks]
  obtain ⟨l, hl⟩ := myAllocChain_cons_fit
    { magic := MAGIC_NUMBER, size := ALIGN n, isFree := true, addr := b0 } [] (ALIGN k)
    rfl (ALIGN_mono hkn)
  have hhit := allocWithStats_hit
    { allChunks := [{ magic := MAGIC_NUMBER, size := ALIGN n, isFree := true, addr := b0 }],
      brk := b0 + (ALIGN n + CHUNK_SIZE),
      stats := ⟨1, n, n, 1, 0, 0⟩ } k b0 l false hkne hl
  refine ⟨by rw [h1], ?_, ?_⟩
  · rw [h2]
    exact hhit.1
  · rw [h2]
    exact hhit.2.1

/-- Witness for C5 at n = 16, k = 8, b0 = 0: both calls hand out payload
pointer 48 and the second call does not touch sbrk. -/
theorem roundtrip_reuse_witness :
    ((0 : Nat) < 16 ∧ (0 : Nat) < 8 ∧ (8 : Nat) ≤ 16) ∧
    ((allocWithStats (initState 0) 16 true).1 = some (0 + CHUNK_SIZE) ∧
     (allocWithStats
         (heapFree (allocWithStats (initState 0) 16 true).2
           ((allocWithStats (initState 0) 16 true).1)) 8 false).1 =
       some (0 + CHUNK_SIZE) ∧
     (allocWithStats
         (heapFree (allocWithStats (initState 0) 16 true).2
           ((allocWithStats (initState 0) 16 true).1)) 8 false).2.stats.sbrkCalls =
       (heapFree (allocWithStats (initState 0) 16 true).2
         ((allocWithStats (initState 0) 16 true).1)).stats.sbrkCalls) :=
  ⟨⟨by decide, by decide, by decide⟩,
   roundtrip_reuse 16 8 0 (by decide) (by decide) (by decide)⟩

/-! ### Preservation of per-chunk predicates by every operation -/

theorem heapMergeChunks_forall (P : Chunk → Prop)
    (hP : ∀ c n, P c → P n → P { c with size := c.size + CHUNK_SIZE + n.size }) :
    ∀ (rest : List Chunk) (c : Chunk), P c → (∀ d ∈ rest, P d) →
      P (heapMergeChunks c rest).1 ∧ ∀ d ∈ (heapMergeChunks c rest).2, P d := by
  intro rest
  induction rest with
  | nil =>
    intro c hc _
    exact ⟨hc, by simp [heapMergeChunks]⟩
  | cons n rest2 ih =>
    intro c hc hrest
    by_cases hn : n.isFree = true
    · rw [heapMergeChunks, if_pos hn]
      exact ih _ (hP c n hc (hrest n (List.mem_cons_self n rest2)))
        (fun d hd => hrest d (List.mem_cons_of_mem n hd))
    · rw [heapMergeChunks, if_neg hn]
      exact ⟨hc, hrest⟩

theorem heapFreeChain_forall (P : Chunk → Prop)
    (hfree : ∀ c, P c → P { c with isFree := true })
    (hmerge : ∀ c n, P c → P n → P { c with size := c.size + CHUNK_SIZE + n.size }) :
    ∀ (chunks : List Chunk) (a : Nat), (∀ d ∈ chunks, P d) →
      ∀ d ∈ (heapFreeChain chunks a).2, P d := by
  intro chunks
  induction chunks with
  | nil =>
    intro a _
    simp [heapFreeChain]
  | cons c rest ih =>
    intro a h
    by_cases hc : c.addr = a
    · rw [heapFreeChain, if_pos hc]
      have hm := heapMergeChunks_forall P hmerge rest { c with isFree := true }
        (hfree c (h c (List.mem_cons_self c rest)))
        (fun d hd => h d (List.mem_cons_of_mem c hd))
      intro d hd
      rcases List.mem_cons.mp hd with rfl | hd2
      · exact hm.1
      · exact hm.2 d hd2
    · rw [heapFreeChain, if_neg hc]
      intro d hd
      rcases List.mem_cons.mp hd with rfl | hd2
      · exact h d (List.mem_cons_self d rest)
      · exact ih a (fun x hx => h x (List.mem_cons_of_mem c hx)) d hd2

theorem myAllocChain_forall (P : Chunk → Prop) (s : Nat)
    (hshrink : ∀ c, P c → P { c with size := s, isFree := false })
    (hcarve : ∀ c, P c →
      P { magic := MAGIC_NUMBER, size := c.size - s - CHUNK_SIZE,
          isFree := true, addr := c.addr + s + CHUNK_SIZE })
    (hocc : ∀ c, P c → P { c with isFree := false })
    (chunks : List Chunk) (a : Nat) (l : List Chunk)
    (h : myAllocChain chunks s = some (a, l)) (hall : ∀ d ∈ chunks, P d) :
    ∀ d ∈ l, P d := by
  obtain ⟨pre, c, post, hchunks, _, _, _, _, hif⟩ := myAllocChain_characterize chunks s a l h
  have hpre : ∀ d ∈ pre, P d := fun d hd => hall d (hchunks ▸ List.mem_append_left _ hd)
  have hc : P c := hall c (hchunks ▸ List.mem_append_right _ (List.mem_cons_self c post))
  have hpost : ∀ d ∈ post, P d := fun d hd =>
    hall d (hchunks ▸ List.mem_append_right _ (List.mem_cons_of_mem c hd))
  by_cases hs : CHUNK_SIZE + ALIGNMENT ≤ c.size - s
  · rw [if_pos hs] at hif
    subst hif
    intro d hd
    rcases List.mem_append.mp hd with hd1 | hd2
    · exact hpre d hd1
    · rcases List.mem_cons.mp hd2 with rfl | hd3
      · exact hshrink c hc
      · rcases List.mem_cons.mp hd3 with rfl | hd4
        · exact hcarve c hc
        · exact hpost d hd4
  · rw [if_neg hs] at hif
    subst hif
    intro d hd
    rcases List.mem_append.mp hd with hd1 | hd2
    · exact hpre d hd1
    · rcases List.mem_cons.mp hd2 with rfl | hd3
      · exact hocc c hc
      · exact hpost d hd3

theorem step_forall (P : Chunk → Prop)
    (hfree : ∀ c, P c → P { c with isFree := true })
    (hmerge : ∀ c n, P c → P n → P { c with size := c.size + CHUNK_SIZE + n.size })
    (hshrink : ∀ c s, s % ALIGNMENT = 0 → P c → P { c with size := s, isFree := false })
    (hcarve : ∀ c s, s % ALIGNMENT = 0 → P c →
      P { magic := MAGIC_NUMBER, size := c.size - s - CHUNK_SIZE,
          isFree := true, addr := c.addr + s + CHUNK_SIZE })
    (hocc : ∀ c, P c → P { c with isFree := false })
    (hnew : ∀ s a, s % ALIGNMENT = 0 →
      P { magic := MAGIC_NUMBER, size := s, isFree := false, addr := a })
    (st : AllocState) (op : AllocOp)
    (h : ∀ d ∈ st.allChunks, P d) :
    ∀ d ∈ (step st op).allChunks, P d := by
  cases op with
  | alloc bytes ok =>
    by_cases hb : bytes = 0
    · simp only [step, allocWithStats, myAlloc, hb, if_true, reduceIte]
      exact h
    · have halign : ALIGN bytes % ALIGNMENT = 0 := ALIGN_mod8 bytes
      cases hm : myAllocChain st.allChunks (ALIGN bytes) with
      | none =>
        simp only [step, allocWithStats, myAlloc, hb, if_false, hm]
        cases ok with
        | true =>
          simp only [if_true, reduceIte]
          intro d hd
          rcases List.mem_append.mp hd with hd1 | hd2
          · exact h d hd1
          · rcases List.mem_cons.mp hd2 with rfl | hd3
            · exact hnew (ALIGN bytes) st.brk halign
            · exact absurd hd3 (List.not_mem_nil d)
        | false =>
          simp only [Bool.false_eq_true, if_false]
          exact h
      | some p =>
        obtain ⟨a, l⟩ := p
        simp only [step, allocWithStats, myAlloc, hb, if_false, hm]
        exact myAllocChain_forall P (ALIGN bytes)
          (fun c hc => hshrink c (ALIGN bytes) halign hc)
          (fun c hc => hcarve c (ALIGN bytes) halign hc)
          hocc st.allChunks a l hm h
  | free ptr =>
    cases ptr with
    | none => exact h
    | some p =>
      simp only [step, heapFree]
      exact heapFreeChain_forall P hfree hmerge st.allChunks (p - CHUNK_SIZE) h

theorem run_forall (P : Chunk → Prop)
    (hfree : ∀ c, P c → P { c with isFree := true })
    (hmerge : ∀ c n, P c → P n → P { c with size := c.size + CHUNK_SIZE + n.size })
    (hshrink : ∀ c s, s % ALIGNMENT = 0 → P c → P { c with size := s, isFree := false })
    (hcarve : ∀ c s, s % ALIGNMENT = 0 → P c →
      P { magic := MAGIC_NUMBER, size := c.size - s - CHUNK_SIZE,
          isFree := true, addr := c.addr + s + CHUNK_SIZE })
    (hocc : ∀ c, P c → P { c with isFree := false })
    (hnew : ∀ s a, s % ALIGNMENT = 0 →
      P { magic := MAGIC_NUMBER, size := s, isFree := false, addr := a }) :
    ∀ (ops : List AllocOp) (st : AllocState), (∀ d ∈ st.allChunks, P d) →
      ∀ d ∈ (run ops st).allChunks, P d := by
  intro ops
  induction ops with
  | nil => intro st h; exact h
  | cons op rest ih =>
    intro st h
    exact ih (step st op) (step_forall P hfree hmerge hshrink hcarve hocc hnew st op h)

/-! ### Claim C7: the sentinel invariant -/

/-- C7. In every allocator state reachable from the initial state by any
sequence of allocate and release calls (with no external header corruption),
every chunk reachable from the chain head carries the magic sentinel:
arena-grown chunks and split remainders are stamped at creation and no
operation ever clears the field. -/
theorem sentinel_invariant (ops : List AllocOp) (b0 : Nat) :
    ∀ c ∈ (run ops (initState b0)).allChunks, c.magic = MAGIC_NUMBER :=
  run_forall (fun c => c.magic = MAGIC_NUMBER)
    (fun _ hc => hc) (fun _ _ hc _ => hc) (fun _ _ _ hc => hc)
    (fun _ _ _ _ => rfl) (fun _ hc => hc) (fun _ _ _ => rfl)
    ops (initState b0) (by intro d hd; exact absurd hd (List.not_mem_nil d))

/-- Witness for C7: after one 5-byte allocation from break 0 the single chain
chunk is the sentinel-stamped 8-byte chunk at address 0. -/
theorem sentinel_invariant_witness :
    ({ magic := MAGIC_NUMBER, size := 8, isFree := false, addr := 0 } : Chunk) ∈
      (run [AllocOp.alloc 5 true] (initState 0)).allChunks ∧
    ({ magic := MAGIC_NUMBER, size := 8, isFree := false, addr := 0 } : Chunk).magic =
      MAGIC_NUMBER :=
  ⟨by decide,
   sentinel_invariant [AllocOp.alloc 5 true] 0
     { magic := MAGIC_NUMBER, size := 8, isFree := false, addr := 0 } (by decide)⟩

/-! ### Claim C8: every chunk size is a multiple of the 8-byte alignment -/

/-- C8. In every allocator state reachable from the initial state by any
sequence of allocate and release calls, every chunk size in the chain is a
multiple of the fixed 8-byte alignment: requested sizes are aligned up before
use, and splitting (both the shrunk chunk and the carved remainder) and
forward merging preserve the property, the header size CHUNK_SIZE = 48 being
itself a multiple of 8. -/
theorem size_aligned_invariant (ops : List AllocOp) (b0 : Nat) :
    ∀ c ∈ (run ops (initState b0)).allChunks, c.size % ALIGNMENT = 0 :=
  run_forall (fun c => c.size % ALIGNMENT = 0)
    (fun _ hc => hc)
    (fun c n hc hn => by
      show (c.size + CHUNK_SIZE + n.size) % ALIGNMENT = 0
      unfold ALIGNMENT at *
      unfold CHUNK_SIZE
      omega)
    (fun _ s hs _ => hs)
    (fun c s hs hc => by
      show (c.size - s - CHUNK_SIZE) % ALIGNMENT = 0
      unfold ALIGNMENT at *
      unfold CHUNK_SIZE
      omega)
    (fun _ hc => hc)
    (fun _ _ hs => hs)
    ops (initState b0) (by intro d hd; exact absurd hd (List.not_mem_nil d))

/-- Witness for C8: after a 5-byte allocation the single chunk has size
ALIGN 5 = 8, a multiple of 8. -/
theorem size_aligned_invariant_witness :
    ({ magic := MAGIC_NUMBER, size := 8, isFree := false, addr := 0 } : Chunk) ∈
      (run [AllocOp.alloc 5 true] (initState 0)).allChunks ∧
    ({ magic := MAGIC_NUMBER, size := 8, isFree := false, addr := 0 } : Chunk).size %
      ALIGNMENT = 0 :=
  ⟨by decide,
   size_aligned_invariant [AllocOp.alloc 5 true] 0
     { magic := MAGIC_NUMBER, size := 8, isFree := false, addr := 0 } (by decide)⟩

/-! ### Claim C9: what the peak statistic actually records -/

theorem myAlloc_stats_peak_total (st : AllocState) (b : Nat) (ok : Bool) :
    (myAlloc st b ok).2.stats.totalAllocated = st.stats.totalAllocated ∧
    (myAlloc st b ok).2.stats.peakMemory = st.stats.peakMemory := by
  by_cases hb : b = 0
  · simp [myAlloc, hb]
  · cases hm : myAllocChain st.allChunks (ALIGN b) with
    | none =>
      rw [myAlloc_miss st b ok hb hm]
      cases ok <;> exact ⟨rfl, rfl⟩
    | some p =>
      obtain ⟨a, l⟩ := p
      rw [myAlloc_hit st b a l ok hb hm]
      exact ⟨rfl, rfl⟩

theorem heapFree_stats_peak_total (st : AllocState) (ptr : Option Nat) :
    (heapFree st ptr).stats.totalAllocated = st.stats.totalAllocated ∧
    (heapFree st ptr).stats.peakMemory = st.stats.peakMemory := by
  cases ptr with
  | none => exact ⟨rfl, rfl⟩
  | some p =>
    simp only [heapFree]
    cases hc : (heapFreeChain st.allChunks (p - CHUNK_SIZE)).1 <;> simp [hc]

theorem step_peak_total (st : AllocState) (op : AllocOp)
    (h : st.stats.peakMemory = st.stats.totalAllocated) :
    (step st op).stats.peakMemory = (step st op).stats.totalAllocated ∧
    (step st op).stats.totalAllocated = st.stats.totalAllocated + requestedBytes op := by
  cases op with
  | alloc b ok =>
    simp only [step, allocWithStats]
    rw [(myAlloc_stats_peak_total _ b ok).1, (myAlloc_stats_peak_total _ b ok).2]
    refine ⟨?_, rfl⟩
    show (if st.stats.peakMemory < st.stats.totalAllocated + b then
      st.stats.totalAllocated + b else st.stats.peakMemory) = st.stats.totalAllocated + b
    rw [h]
    split <;> omega
  | free ptr =>
    obtain ⟨ht, hp⟩ := heapFree_stats_peak_total st ptr
    exact ⟨by rw [show step st (AllocOp.free ptr) = heapFree st ptr from rfl, hp, ht, h],
           by rw [show step st (AllocOp.free ptr) = heapFree st ptr from rfl, ht]; rfl⟩

theorem run_peak_total : ∀ (ops : List AllocOp) (st : AllocState),
    st.stats.peakMemory = st.stats.totalAllocated →
    (run ops st).stats.peakMemory = (run ops st).stats.totalAllocated ∧
    (run ops st).stats.totalAllocated =
      st.stats.totalAllocated + (ops.map requestedBytes).sum := by
  intro ops
  induction ops with
  | nil =>
    intro st h
    exact ⟨h, by simp [run]⟩
  | cons op rest ih =>
    intro st h
    obtain ⟨h1, h2⟩ := step_peak_total st op h
    obtain ⟨h3, h4⟩ := ih (step st op) h1
    have hrun : run (op :: rest) st = run rest (step st op) := rfl
    rw [hrun]
    refine ⟨h3, ?_⟩
    simp only [List.map_cons, List.sum_cons]
    omega

/-- C9 counterexample. The claim that peakMemory records the peak cumulative
bytes outstanding fails on the trace allocate 8, release it, allocate 8
(from the pristine allocator at break 0, payload pointer 48): at most 8 bytes
are ever outstanding (outstandingPeak of the deltas +8, -8, +8 is 8), but the
code records peakMemory = 16, because heapFree never decreases
totalAllocated, so the running total — and with it the recorded peak — only
ever grows. -/
theorem peakMemory_not_outstandingPeak :
    (run [AllocOp.alloc 8 true, AllocOp.free (some 48), AllocOp.alloc 8 true]
      (initState 0)).stats.peakMemory = 16 ∧
    outstandingPeak [8, -8, 8] = 8 ∧
    ((run [AllocOp.alloc 8 true, AllocOp.free (some 48), AllocOp.alloc 8 true]
        (initState 0)).stats.peakMemory : Int) ≠ outstandingPeak [8, -8, 8] := by
  refine ⟨by decide, by decide, by decide⟩

/-- C9 amended. After any sequence of allocate and release calls the
peak-usage statistic equals the cumulative-bytes counter — release never
decreases the cumulative counter, so the recorded peak is the total of all
bytes ever requested, not the maximum outstanding — and the cumulative
counter records exactly the sum of the bytes requested by all allocate
calls. -/
theorem peakMemory_eq_totalAllocated (ops : List AllocOp) (b0 : Nat) :
    (run ops (initState b0)).stats.peakMemory =
      (run ops (initState b0)).stats.totalAllocated ∧
    (run ops (initState b0)).stats.totalAllocated = (ops.map requestedBytes).sum := by
  obtain ⟨h1, h2⟩ := run_peak_total ops (initState b0) rfl
  exact ⟨h1, by rw [h2]; exact Nat.zero_add _⟩

end HeapAlloc
